import Mathlib

/-!
Shallow embedding of `sales_dashboard.py` (a weekly sales dashboard script).

The script's verifiable core consists of:
  * `get_fin_year`, `get_fin_week`, `get_week_label` — the financial-calendar
    mapping applied to transaction dates (Python `datetime` arithmetic is
    embedded through proleptic-Gregorian day ordinals);
  * `indian_format` — the South-Asian digit grouping formatter;
  * `build_card` — the per-domain aggregation: filter, per-year weekly
    group-by sums, outer merge on (week, week label), variation columns and
    grand totals.

Revenue values are modelled as rationals (pandas sums and divisions are
exact on the integral inputs the claims exercise); Python integer strings
are modelled by an explicit decimal-numeral function.
-/

namespace SalesDashboard

/-! ### Calendar model

Python `datetime` dates are proleptic Gregorian.  `toOrdinal` mirrors
`datetime.toordinal()`: January 1 of year 1 is day 1.  Subtraction of two
`datetime`s yields the difference of their ordinals in days. -/

/-- Gregorian leap-year test. -/
def isLeap (y : Nat) : Bool :=
  y % 4 = 0 && (y % 100 != 0 || y % 400 = 0)

/-- Number of days in month `m` (1–12) of year `y`. -/
def monthLen (y m : Nat) : Nat :=
  if m = 2 then (if isLeap y then 29 else 28)
  else if m = 4 ∨ m = 6 ∨ m = 9 ∨ m = 11 then 30
  else 31

/-- A calendar date, as carried by the `Date` column after parsing. -/
structure Date where
  year : Nat
  month : Nat
  day : Nat
deriving DecidableEq, Repr

/-- Validity of a date in Python's `datetime` range (years 1–9999). -/
def isValidDate (d : Date) : Prop :=
  1 ≤ d.year ∧ d.year ≤ 9999 ∧ 1 ≤ d.month ∧ d.month ≤ 12 ∧
    1 ≤ d.day ∧ d.day ≤ monthLen d.year d.month

instance (d : Date) : Decidable (isValidDate d) :=
  inferInstanceAs
    (Decidable
      (1 ≤ d.year ∧ d.year ≤ 9999 ∧ 1 ≤ d.month ∧ d.month ≤ 12 ∧
        1 ≤ d.day ∧ d.day ≤ monthLen d.year d.month))

/-- Days in all years strictly before year `y` (proleptic Gregorian). -/
def daysBeforeYear (y : Nat) : Nat :=
  365 * (y - 1) + (y - 1) / 4 - (y - 1) / 100 + (y - 1) / 400

/-- Days in months `1..m-1` of year `y`. -/
def daysBeforeMonth (y m : Nat) : Nat :=
  ((List.range' 1 (m - 1)).map (monthLen y)).sum

/-- `datetime.toordinal()`: day number with 0001-01-01 ↦ 1. -/
def toOrdinal (d : Date) : Nat :=
  daysBeforeYear d.year + daysBeforeMonth d.year d.month + d.day

/-! ### Decimal numerals (Python `str` on integers) -/

/-- The character for decimal digit `n` (0–9). -/
def digitChar (n : Nat) : Char := Char.ofNat (48 + n)

/-- Fuel-driven most-significant-first decimal digits of `n`; `fuel` bounds
the number of digits.  Structural on `fuel`, so it reduces in the kernel. -/
def natDigitsAux : Nat → Nat → List Char
  | 0, _ => []
  | fuel + 1, n =>
    if n < 10 then [digitChar n]
    else natDigitsAux fuel (n / 10) ++ [digitChar (n % 10)]

/-- Decimal digits of `n`, most significant first (`n + 1` fuel always
suffices since `n < 10 ^ (n + 1)`). -/
def natDigits (n : Nat) : List Char := natDigitsAux (n + 1) n

/-- Python `str(n)` for a natural number. -/
def natStr (n : Nat) : String := String.mk (natDigits n)

/-- Python `str(y)[-2:]`: the last at-most-two characters of the numeral. -/
def last2 (n : Nat) : String :=
  String.mk ((natDigits n).drop ((natDigits n).length - 2))

/-- Python `str(x)` for an integer: a `-` sign followed by the magnitude. -/
def intDigits (x : Int) : List Char :=
  if x < 0 then '-' :: natDigits x.natAbs else natDigits x.natAbs

/-- Python `str(x)` for an integer, as a string. -/
def intStr (x : Int) : String := String.mk (intDigits x)

/-! ### The calendar mapper (source lines 13–28) -/

/-- `get_fin_year` (source lines 13–15):
`f"{y-1}-{str(y)[-2:]}" if d.month < 4 else f"{y}-{str(y+1)[-2:]}"`. -/
def get_fin_year (d : Date) : String :=
  if d.month < 4 then natStr (d.year - 1) ++ "-" ++ last2 d.year
  else natStr d.year ++ "-" ++ last2 (d.year + 1)

/-- The calendar year in which the financial year containing `d` starts:
`d.year if d.month >= 4 else d.year - 1` (source lines 20 and 24). -/
def fyStartYear (d : Date) : Nat :=
  if 4 ≤ d.month then d.year else d.year - 1

/-- The `datetime(…, 4, 1)` financial-year start used by the source. -/
def fyStart (d : Date) : Date := ⟨fyStartYear d, 4, 1⟩

/-- `get_fin_week` (source lines 19–21): `((d - fy_start).days // 7) + 1`,
with Python's floor division embedded as `Int.fdiv`. -/
def get_fin_week (d : Date) : Int :=
  ((toOrdinal d : Int) - (toOrdinal (fyStart d) : Int)).fdiv 7 + 1

/-- `strftime('%b')` month abbreviations, indexed by month 1–12. -/
def monthAbbrev (m : Nat) : String :=
  (["Jan", "Feb", "Mar", "Apr", "May", "Jun", "Jul", "Aug", "Sep", "Oct",
    "Nov", "Dec"]).getD (m - 1) ""

/-- `strftime('%b %d')`: abbreviated month and zero-padded two-digit day. -/
def strftimeMonDD (d : Date) : String :=
  monthAbbrev d.month ++ " " ++
    (if d.day < 10 then "0" ++ natStr d.day else natStr d.day)

/-- The 24 months starting at April of year `Y`, enough to resolve any
day offset from April 1 that the week labels can produce (< 371 days). -/
def monthsFromApril (Y : Nat) : List (Nat × Nat) :=
  [(Y, 4), (Y, 5), (Y, 6), (Y, 7), (Y, 8), (Y, 9), (Y, 10), (Y, 11),
   (Y, 12), (Y + 1, 1), (Y + 1, 2), (Y + 1, 3), (Y + 1, 4), (Y + 1, 5),
   (Y + 1, 6), (Y + 1, 7), (Y + 1, 8), (Y + 1, 9), (Y + 1, 10),
   (Y + 1, 11), (Y + 1, 12), (Y + 2, 1), (Y + 2, 2), (Y + 2, 3)]

/-- Walk a month list, converting a 0-based day offset into a date. -/
def resolveDate : List (Nat × Nat) → Nat → Date
  | [], _ => ⟨0, 0, 0⟩
  | (y, m) :: rest, off =>
    if off < monthLen y m then ⟨y, m, off + 1⟩
    else resolveDate rest (off - monthLen y m)

/-- `datetime(Y, 4, 1) + Timedelta(days = off)`: calendar addition of a
day offset to an April 1 start, embedded by walking month lengths. -/
def dateFromAprilOffset (Y off : Nat) : Date :=
  resolveDate (monthsFromApril Y) off

/-- `get_week_label` (source lines 23–28).  The source recomputes the week
number by the same formula as `get_fin_week`, then takes
`week_start = fy_start + Timedelta(weeks = week_num - 1)` and
`week_end = week_start + Timedelta(days = 6)`; both additions are embedded
as a single day offset from April 1. -/
def get_week_label (d : Date) : String :=
  let week_num : Int :=
    ((toOrdinal d : Int) - (toOrdinal (fyStart d) : Int)).fdiv 7 + 1
  let off : Nat := (7 * (week_num - 1)).toNat
  let week_start := dateFromAprilOffset (fyStartYear d) off
  let week_end := dateFromAprilOffset (fyStartYear d) (off + 6)
  "Week " ++ intStr week_num ++ ": " ++ strftimeMonDD week_start ++ " - " ++
    strftimeMonDD week_end

/-! ### The number formatter (source lines 36–47)

```python
def indian_format(x):
    try: x = int(x)
    except: return x
    s = str(x)[::-1]
    groups = [s[:3]]
    s = s[3:]
    while s:
        groups.append(s[:2])
        s = s[2:]
    return ','.join(g[::-1] for g in groups[::-1])
```
The integer path is embedded over `Int`; the `try` never fails on the
numeric column values the program feeds it. -/

/-- The `while` loop of `indian_format`: split a list into chunks of two. -/
def chunk2 : List Char → List (List Char)
  | [] => []
  | [a] => [[a]]
  | a :: b :: rest => [a, b] :: chunk2 rest

/-- `groups = [s[:3]]` followed by the pair-chunking of `s[3:]`. -/
def indianGroups (s : List Char) : List (List Char) :=
  s.take 3 :: chunk2 (s.drop 3)

/-- `','.join(g[::-1] for g in groups[::-1])`. -/
def joinGroups (gs : List (List Char)) : List Char :=
  List.intercalate [','] (gs.reverse.map List.reverse)

/-- The grouping pipeline applied to an already-built digit string `s`:
reverse, chunk, reverse back and join with commas. -/
def groupChars (s : List Char) : List Char :=
  joinGroups (indianGroups s.reverse)

/-- `indian_format` on an integer input. -/
def indian_format (x : Int) : String := String.mk (groupChars (intDigits x))

/-! ### Rationals standing in for the numeric column values -/

/-- Python `int(q)`: truncation toward zero. -/
def ratTrunc (q : ℚ) : Int := q.num.tdiv (q.den : Int)

/-- `⌊q⌋` computed directly on the reduced fraction. -/
def ratFloor (q : ℚ) : Int := q.num.fdiv (q.den : Int)

/-- Python `round` to zero decimals: round half to even. -/
def pyRound0 (q : ℚ) : Int :=
  let n := ratFloor q
  let frac := q - (n : ℚ)
  if frac < 1 / 2 then n
  else if 1 / 2 < frac then n + 1
  else if n % 2 = 0 then n else n + 1

/-- pandas `.round(2)` / Python `round(x, 2)`. -/
def round2 (q : ℚ) : ℚ := (pyRound0 (q * 100) : ℚ) / 100

/-! ### The aggregator `build_card` (source lines 65–109)

A transaction is one row of the spreadsheet; the `Financial Year`, `Week`
and `Week Label` columns are the calendar mapper applied to its date
(source lines 17, 30, 31). -/

/-- One spreadsheet row: `Date`, `Domain`, `Revenue` columns. -/
structure Tx where
  date : Date
  domain : String
  revenue : ℚ
deriving DecidableEq, Repr

/-- The derived `Financial Year` column (source line 17). -/
def txFY (t : Tx) : String := get_fin_year t.date

/-- The derived `Week` column (source line 30). -/
def txWeek (t : Tx) : Int := get_fin_week t.date

/-- The derived `Week Label` column (source line 31). -/
def txLabel (t : Tx) : String := get_week_label t.date

/-- Source lines 66–69.  Python's `if domain_filter:` is falsy both for
`None` and for the empty string, in which cases no filtering happens. -/
def filterDomain (txs : List Tx) (domain_filter : Option String) : List Tx :=
  match domain_filter with
  | none => txs
  | some d => if d = "" then txs else txs.filter (fun t => t.domain = d)

/-- `fy in filtered['Financial Year'].unique()` (source line 71). -/
def hasFY (txs : List Tx) (fy : String) : Bool :=
  txs.any (fun t => txFY t == fy)

/-- The group-by keys of one year's weekly sums (source lines 74–75):
the distinct `(Week, Week Label)` pairs of the year's transactions. -/
def yearKeys (txs : List Tx) (fy : String) : List (Int × String) :=
  ((txs.filter (fun t => txFY t = fy)).map (fun t => (txWeek t, txLabel t))).dedup

/-- Lexicographic strict comparison of char lists by code point (the
comparison Python applies to strings). -/
def strLtb : List Char → List Char → Bool
  | [], [] => false
  | [], _ :: _ => true
  | _ :: _, [] => false
  | a :: as, b :: bs =>
    if a.toNat < b.toNat then true
    else if b.toNat < a.toNat then false
    else strLtb as bs

/-- Non-strict string comparison by code point. -/
def strLeb (s t : String) : Bool := !(strLtb t.data s.data)

/-- The `(Week, Week Label)` lexicographic order used to sort the merged
frame (`pd.merge(..., how='outer')` sorts the union of keys, and the
subsequent `.sort_values('Week')` keeps that week order). -/
def keyLE (a b : Int × String) : Prop :=
  a.1 < b.1 ∨ (a.1 = b.1 ∧ strLeb a.2 b.2 = true)

instance : DecidableRel keyLE := fun a b =>
  inferInstanceAs (Decidable (a.1 < b.1 ∨ (a.1 = b.1 ∧ strLeb a.2 b.2 = true)))

/-- The merged frame's key column (source line 80): the sorted union of
both years' group-by keys. -/
def mergedKeys (txs : List Tx) (fy1 fy2 : String) : List (Int × String) :=
  List.insertionSort keyLE ((yearKeys txs fy1 ++ yearKeys txs fy2).dedup)

/-- One year's revenue sum at one merged key; `0` when the year has no
transactions at that key (the `fillna(0)` of source line 80). -/
def sumRev (txs : List Tx) (fy : String) (k : Int × String) : ℚ :=
  ((txs.filter
      (fun t => txFY t = fy ∧ txWeek t = k.1 ∧ txLabel t = k.2)).map
    Tx.revenue).sum

/-- One row of the merged frame with its derived columns
(source lines 80–98). -/
structure WeekRow where
  week : Int
  label : String
  rev1 : ℚ
  rev2 : ℚ
  variationPct : ℚ
  variationAmount : String
deriving DecidableEq, Repr, Inhabited

/-- Source lines 87–95: the `Variation (%)` and `Variation in Amount`
columns of one merged row. -/
def mkRow (total2 r1 r2 : ℚ) (k : Int × String) : WeekRow :=
  { week := k.1
    label := k.2
    rev1 := r1
    rev2 := r2
    variationPct := round2 (if total2 ≠ 0 then (r1 - r2) * 100 / total2 else 0)
    variationAmount :=
      if r1 ≠ 0 ∨ r2 ≠ 0 then indian_format (ratTrunc (r1 - r2)) else "-" }

/-- The aggregator's output for one card: the merged per-week rows and the
grand totals (source lines 80–109; the purely presentational formatted
columns and the chart are not modelled). -/
structure Report where
  rows : List WeekRow
  totalRev1 : ℚ
  totalRev2 : ℚ
  totalVar : ℚ
  totalVarAmount : String
deriving DecidableEq, Repr, Inhabited

/-- The post-guard body of `build_card` on the filtered transactions. -/
def mkReport (txs : List Tx) (fy1 fy2 : String) : Report :=
  let ks := mergedKeys txs fy1 fy2
  let total1 := (ks.map (sumRev txs fy1)).sum
  let total2 := (ks.map (sumRev txs fy2)).sum
  { rows := ks.map (fun k => mkRow total2 (sumRev txs fy1 k) (sumRev txs fy2 k) k)
    totalRev1 := total1
    totalRev2 := total2
    totalVar := if total2 ≠ 0 then (total1 - total2) * 100 / total2 else 0
    totalVarAmount :=
      if total1 ≠ 0 ∨ total2 ≠ 0 then indian_format (ratTrunc (total1 - total2))
      else "-" }

/-- `build_card` (source lines 65–109): filter by domain, silently bail out
when either selected financial year is absent (source lines 71–72), and
otherwise build the merged report. -/
def build_card (txs : List Tx) (domain_filter : Option String)
    (fy1 fy2 : String) : Option Report :=
  let filtered := filterDomain txs domain_filter
  if hasFY filtered fy1 && hasFY filtered fy2 then
    some (mkReport filtered fy1 fy2)
  else none

/-! ### Definitions following the specification's words

Each `…Spec` definition below transcribes the specification sentence of a
refinement claim; the theorems compare them with the source embeddings. -/

/-- Spec §4.1: "let y = date.year; if date.month < 4, return
`{y-1}-{last two digits of y}`; else return `{y}-{last two digits of y+1}`",
with "last two digits" read as the last at-most-two characters of the
decimal numeral. -/
def finYearSpec (d : Date) : String :=
  if d.month < 4 then natStr (d.year - 1) ++ "-" ++ last2 d.year
  else natStr d.year ++ "-" ++ last2 (d.year + 1)

/-- Spec §4.1: "fy_start = April 1 of (y if month≥4 else y-1); return
floor((date − fy_start).days / 7) + 1". -/
def finWeekSpec (d : Date) : Int :=
  ((toOrdinal d : Int) -
     (toOrdinal ⟨if 4 ≤ d.month then d.year else d.year - 1, 4, 1⟩ : Int)).fdiv
    7 + 1

/-- Spec §4.1: "using the same fy_start and week number w,
week_start = fy_start + 7×(w−1) days, week_end = week_start + 6 days;
return `Week {w}: {week_start as Mon DD} - {week_end as Mon DD}`",
with w the number `financial_week` returns. -/
def weekLabelSpec (d : Date) : String :=
  let w : Int := get_fin_week d
  let off : Nat := (7 * (w - 1)).toNat
  "Week " ++ intStr w ++ ": " ++
    strftimeMonDD (dateFromAprilOffset (fyStartYear d) off) ++ " - " ++
    strftimeMonDD (dateFromAprilOffset (fyStartYear d) (off + 6))

/-- The formatting that claim C1 asserts: group the magnitude's digit
string (last 3 digits one group, remaining digits in pairs from the right,
joined with commas) and prefix `-` exactly when the input is negative. -/
def indianSpec (x : Int) : String :=
  (if x < 0 then "-" else "") ++ String.mk (groupChars (natDigits x.natAbs))

/-- The number denoted by a most-significant-first digit string; used to
show the decimal numeral function is injective. -/
def digitsVal (l : List Char) : Nat :=
  l.foldl (fun a c => 10 * a + (c.toNat - 48)) 0

/-- The financial-year label as a function of the FY's starting calendar
year alone: `get_fin_year` always produces `fyLabel (fyStartYear d)`. -/
def fyLabel (s : Nat) : String := natStr s ++ "-" ++ last2 (s + 1)

/-- The three-transaction scenario of spec §8: two FY 2023-24 weeks against
one FY 2022-23 week, all in domain "A". -/
def scenarioTxs : List Tx :=
  [⟨⟨2023, 4, 1⟩, "A", 100⟩, ⟨⟨2023, 4, 8⟩, "A", 200⟩,
   ⟨⟨2022, 4, 1⟩, "A", 150⟩]

/-- The report the aggregator builds on `scenarioTxs` (it exists, so
`getD` never falls back to the default). -/
def scenarioReport : Report :=
  (build_card scenarioTxs none "2023-24" "2022-23").getD default

/-! ## Theorems

Batteries marks the `Rat` arithmetic operations `@[irreducible]`; the claims
are settled by evaluating the embedding on concrete inputs, so reducibility
is restored locally for this development. -/

section
attribute [local semireducible] Rat.add Rat.sub Rat.mul Rat.inv Rat.ofScientific

/-- Unfolding `build_card` when it produces a report. -/
theorem build_card_eq_some {txs : List Tx} {domain_filter : Option String}
    {fy1 fy2 : String} {r : Report}
    (h : build_card txs domain_filter fy1 fy2 = some r) :
    r = mkReport (filterDomain txs domain_filter) fy1 fy2 := by
  simp only [build_card] at h
  by_cases hc : (hasFY (filterDomain txs domain_filter) fy1 &&
      hasFY (filterDomain txs domain_filter) fy2) = true
  · rw [if_pos hc] at h
    exact (Option.some.inj h).symm
  · rw [if_neg hc] at h
    cases h

/-- The merged key list carries no duplicate `(week, label)` pair. -/
theorem mergedKeys_nodup (txs : List Tx) (fy1 fy2 : String) :
    (mergedKeys txs fy1 fy2).Nodup := by
  unfold mergedKeys
  exact (List.perm_insertionSort keyLE _).nodup_iff.mpr (List.nodup_dedup _)

/-- The per-row `(week, label)` fields of a report are exactly its merged
keys. -/
theorem mkReport_rows_keys (txs : List Tx) (fy1 fy2 : String) :
    (mkReport txs fy1 fy2).rows.map (fun w => (w.week, w.label)) =
      mergedKeys txs fy1 fy2 := by
  simp only [mkReport, List.map_map]
  exact List.map_id _

/-- C3: for every calendar date `d` with year `y`, `get_fin_year d` is
`"{y-1}-{last two digits of y}"` when `d.month < 4` and
`"{y}-{last two digits of y+1}"` when `d.month ≥ 4` (the specification's
formula, transcribed as `finYearSpec`). -/
theorem claim_C3 (d : Date) : get_fin_year d = finYearSpec d := rfl

/-- C4: `get_fin_week d` equals `floor((d − fy_start).days / 7) + 1` with
`fy_start` April 1 of `d`'s year when `d.month ≥ 4` and of the previous
year otherwise (`finWeekSpec`); the embedding is a total function, and any
April 1 date yields week 1 of the new financial year. -/
theorem claim_C4 (d : Date) :
    get_fin_week d = finWeekSpec d ∧
      (d.month = 4 ∧ d.day = 1 → get_fin_week d = 1) := by
  refine ⟨rfl, ?_⟩
  rintro ⟨h4, h1⟩
  obtain ⟨y, m, dy⟩ := d
  subst h4; subst h1
  simp [get_fin_week, fyStart, fyStartYear]

/-- C9: `get_week_label d` is
`"Week {w}: {week_start as Mon DD} - {week_end as Mon DD}"` where `w` is
exactly `get_fin_week d`, `week_start = fy_start + 7×(w−1)` days for the
same `fy_start` that `get_fin_week` uses, and `week_end = week_start + 6`
days (the specification's formula, transcribed as `weekLabelSpec`). -/
theorem claim_C9 (d : Date) : get_week_label d = weekLabelSpec d := rfl

/-- C2: on the three-transaction scenario (two weeks of FY 2023-24 against
one week of FY 2022-23), the report has a week-1 row with
`revenue_recent = 100`, `revenue_older = 150`, variation amount `-50`, a
week-2 row with `revenue_recent = 200`, `revenue_older = 0`, and totals
`300` / `150` with variation percentage `100`. -/
theorem claim_C2 :
    (build_card
        [⟨⟨2023, 4, 1⟩, "A", 100⟩, ⟨⟨2023, 4, 8⟩, "A", 200⟩,
          ⟨⟨2022, 4, 1⟩, "A", 150⟩] none "2023-24" "2022-23").map
        (fun r =>
          (r.rows.map (fun w => (w.week, w.rev1, w.rev2, w.variationAmount)),
            r.totalRev1, r.totalRev2, r.totalVar)) =
      some ([(1, 100, 150, "-50"), (2, 200, 0, "200")], 300, 150, 100) := by
  rfl

/-- C6: `build_card` produces no report (and no error) whenever either
selected financial year is absent from the domain-filtered transactions. -/
theorem claim_C6 (txs : List Tx) (domain_filter : Option String)
    (fy1 fy2 : String)
    (h : fy1 ∉ (filterDomain txs domain_filter).map txFY ∨
         fy2 ∉ (filterDomain txs domain_filter).map txFY) :
    build_card txs domain_filter fy1 fy2 = none := by
  have hiff : ∀ (l : List Tx) (fy : String),
      hasFY l fy = true ↔ fy ∈ l.map txFY := by
    intro l fy
    simp only [hasFY, List.any_eq_true, beq_iff_eq, List.mem_map]
  have h1 : ¬ ((hasFY (filterDomain txs domain_filter) fy1 &&
      hasFY (filterDomain txs domain_filter) fy2) = true) := by
    intro hc
    rw [Bool.and_eq_true] at hc
    rcases h with h | h
    · exact h ((hiff _ _).mp hc.1)
    · exact h ((hiff _ _).mp hc.2)
  simp only [build_card]
  rw [if_neg h1]

/-- Witness for C6: a domain filter (`"Z"`) matching no transaction makes
both financial years absent from the filtered set, so no report appears. -/
theorem claim_C6_witness :
    ("2023-24" ∉
        (filterDomain
            [⟨⟨2023, 4, 1⟩, "A", 100⟩, ⟨⟨2022, 4, 1⟩, "A", 150⟩]
            (some "Z")).map txFY ∨
      "2022-23" ∉
        (filterDomain
            [⟨⟨2023, 4, 1⟩, "A", 100⟩, ⟨⟨2022, 4, 1⟩, "A", 150⟩]
            (some "Z")).map txFY) ∧
    build_card [⟨⟨2023, 4, 1⟩, "A", 100⟩, ⟨⟨2022, 4, 1⟩, "A", 150⟩]
        (some "Z") "2023-24" "2022-23" = none :=
  ⟨by decide,
   claim_C6 [⟨⟨2023, 4, 1⟩, "A", 100⟩, ⟨⟨2022, 4, 1⟩, "A", 150⟩]
     (some "Z") "2023-24" "2022-23" (by decide)⟩

/-- C5: every week row of a built report carries
`variation_pct = round2((rev_recent − rev_older) · 100 / total_rev_older)`
when the older year's grand total is nonzero, and `0` when that total is
zero, whatever the recent total is. -/
theorem claim_C5 (txs : List Tx) (domain_filter : Option String)
    (fy1 fy2 : String) (r : Report)
    (h : build_card txs domain_filter fy1 fy2 = some r)
    (row : WeekRow) (hrow : row ∈ r.rows) :
    row.variationPct =
      if r.totalRev2 = 0 then 0
      else round2 ((row.rev1 - row.rev2) * 100 / r.totalRev2) := by
  have hr := build_card_eq_some h
  subst hr
  simp only [mkReport] at hrow ⊢
  obtain ⟨k, hk, rfl⟩ := List.mem_map.mp hrow
  simp only [mkRow]
  by_cases h2 :
      ((mergedKeys (filterDomain txs domain_filter) fy1 fy2).map
          (sumRev (filterDomain txs domain_filter) fy2)).sum = 0
  · rw [if_pos h2, if_neg (fun hne => hne h2)]
    decide
  · rw [if_neg h2, if_pos h2]

/-- Witness for C5 at the concrete scenario report's first row. -/
theorem claim_C5_witness :
    build_card scenarioTxs none "2023-24" "2022-23" = some scenarioReport ∧
      scenarioReport.rows.getD 0 default ∈ scenarioReport.rows ∧
      (scenarioReport.rows.getD 0 default).variationPct =
        (if scenarioReport.totalRev2 = 0 then 0
         else round2
           (((scenarioReport.rows.getD 0 default).rev1 -
               (scenarioReport.rows.getD 0 default).rev2) * 100 /
             scenarioReport.totalRev2)) :=
  ⟨rfl, by decide,
   claim_C5 scenarioTxs none "2023-24" "2022-23" scenarioReport rfl
     (scenarioReport.rows.getD 0 default) (by decide)⟩

/-- C7 fails as stated: with one transaction in week 48 of FY 2023-24
(which spans the leap day Feb 29 2024) and one in week 48 of FY 2022-23,
the two years label week 48 differently (`Feb 24 - Mar 01` vs
`Feb 24 - Mar 02`), so the outer join on `(Week, Week Label)` produces two
distinct rows with the same week number 48. -/
theorem claim_C7_counterexample :
    ((build_card [⟨⟨2024, 2, 24⟩, "A", 100⟩, ⟨⟨2023, 2, 24⟩, "A", 150⟩]
          none "2023-24" "2022-23").map
        (fun r => r.rows.map (fun w => w.week)) = some [48, 48]) ∧
      ¬ (((build_card [⟨⟨2024, 2, 24⟩, "A", 100⟩, ⟨⟨2023, 2, 24⟩, "A", 150⟩]
              none "2023-24" "2022-23").getD default).rows.map
            (fun w => w.week)).Nodup := by
  exact ⟨rfl, by decide⟩

/-- C7 amended: it is the `(week number, week label)` pairs — the actual
join keys — that appear in at most one merged row each; the week number
alone can repeat when the two financial years label the same week number
differently (which happens exactly when one FY spans a Feb 29). -/
theorem claim_C7_amended (txs : List Tx) (domain_filter : Option String)
    (fy1 fy2 : String) (r : Report)
    (h : build_card txs domain_filter fy1 fy2 = some r) :
    (r.rows.map (fun w => (w.week, w.label))).Nodup := by
  have hr := build_card_eq_some h
  subst hr
  rw [mkReport_rows_keys]
  exact mergedKeys_nodup _ _ _

/-- Witness for the amended C7 at the concrete scenario report. -/
theorem claim_C7_witness :
    build_card scenarioTxs none "2023-24" "2022-23" = some scenarioReport ∧
      (scenarioReport.rows.map (fun w => (w.week, w.label))).Nodup :=
  ⟨rfl,
   claim_C7_amended scenarioTxs none "2023-24" "2022-23" scenarioReport rfl⟩

/-- C10: in every built report the totals row sums the per-week rows —
`total_rev_recent` is the sum of the rows' `revenue_recent`,
`total_rev_older` the sum of their `revenue_older` — and the totals-row
variation applies the per-week formula to those totals. -/
theorem claim_C10 (txs : List Tx) (domain_filter : Option String)
    (fy1 fy2 : String) (r : Report)
    (h : build_card txs domain_filter fy1 fy2 = some r) :
    r.totalRev1 = (r.rows.map (fun w => w.rev1)).sum ∧
      r.totalRev2 = (r.rows.map (fun w => w.rev2)).sum ∧
      r.totalVar =
        (if r.totalRev2 = 0 then 0
         else (r.totalRev1 - r.totalRev2) * 100 / r.totalRev2) := by
  have hr := build_card_eq_some h
  subst hr
  simp only [mkReport, List.map_map]
  refine ⟨rfl, rfl, ?_⟩
  rw [ite_not]

/-- Witness for C10 at the concrete scenario report. -/
theorem claim_C10_witness :
    build_card scenarioTxs none "2023-24" "2022-23" = some scenarioReport ∧
      scenarioReport.totalRev1 =
        (scenarioReport.rows.map (fun w => w.rev1)).sum ∧
      scenarioReport.totalRev2 =
        (scenarioReport.rows.map (fun w => w.rev2)).sum ∧
      scenarioReport.totalVar =
        (if scenarioReport.totalRev2 = 0 then 0
         else (scenarioReport.totalRev1 - scenarioReport.totalRev2) * 100 /
           scenarioReport.totalRev2) :=
  ⟨rfl, claim_C10 scenarioTxs none "2023-24" "2022-23" scenarioReport rfl⟩

/-! ### The formatter's sign behaviour (claim C1)

`indian_format` reverses `str(x)` including a leading `-`, so the sign
travels through the grouping machinery as if it were a digit.  The lemmas
below track where it ends up. -/

/-- `intercalate` over a cons with a nonempty tail. -/
theorem intercalate_cons_of_ne_nil (sep a : List Char)
    (xs : List (List Char)) (h : xs ≠ []) :
    List.intercalate sep (a :: xs) = a ++ sep ++ List.intercalate sep xs := by
  cases xs with
  | nil => exact absurd rfl h
  | cons b t => simp [List.intercalate, List.append_assoc]

/-- Joining after appending one extra group: the extra group surfaces,
reversed, at the front of the output. -/
theorem joinGroups_concat (k g : List Char) (C : List (List Char)) :
    joinGroups (k :: (C ++ [g])) = g.reverse ++ [','] ++ joinGroups (k :: C) := by
  unfold joinGroups
  have h1 : (k :: (C ++ [g])).reverse = g :: (C.reverse ++ [k]) := by
    simp
  rw [h1]
  have h2 : (k :: C).reverse = C.reverse ++ [k] := by simp
  rw [h2, List.map_cons]
  exact intercalate_cons_of_ne_nil [','] g.reverse _ (by simp)

/-- `chunk2` distributes over an append whose left part has even length. -/
theorem chunk2_append_even :
    ∀ (N : List Char), N.length % 2 = 0 → ∀ (T : List Char),
      chunk2 (N ++ T) = chunk2 N ++ chunk2 T
  | [], _, T => by simp [chunk2]
  | [a], h, T => by simp at h
  | a :: b :: N, h, T => by
    have hN : N.length % 2 = 0 := by
      simp only [List.length_cons] at h
      omega
    simp [chunk2, chunk2_append_even N hN T]

/-- A decimal numeral is never empty. -/
theorem natDigits_ne_nil (n : Nat) : natDigits n ≠ [] := by
  unfold natDigits natDigitsAux
  by_cases h : n < 10
  · simp [h]
  · simp [h]

/-- Where the reversed sign character lands: appending `-` after the
reversed digit string leaves it as a prefix of the output, in its own
comma-separated group exactly when the digit count is odd and at least 3. -/
theorem groupLoop_dash (R : List Char) (hR : R ≠ []) :
    joinGroups (indianGroups (R ++ ['-'])) =
      if R.length % 2 = 1 ∧ 3 ≤ R.length
      then '-' :: ',' :: joinGroups (indianGroups R)
      else '-' :: joinGroups (indianGroups R) := by
  rcases R with _ | ⟨a, _ | ⟨b, _ | ⟨c, T⟩⟩⟩
  · exact absurd rfl hR
  · rw [if_neg (by simp)]
    rfl
  · rw [if_neg (by simp)]
    rfl
  · have hsplit : (a :: b :: c :: T) ++ ['-'] = a :: b :: c :: (T ++ ['-']) := rfl
    rw [hsplit]
    have hgl : indianGroups (a :: b :: c :: (T ++ ['-'])) =
        [a, b, c] :: chunk2 (T ++ ['-']) := rfl
    have hgr : indianGroups (a :: b :: c :: T) = [a, b, c] :: chunk2 T := rfl
    rw [hgl, hgr]
    by_cases hT : T.length % 2 = 0
    · have hch : chunk2 (T ++ ['-']) = chunk2 T ++ [['-']] :=
        chunk2_append_even T hT ['-']
      rw [hch, joinGroups_concat]
      rw [if_pos (by simp; omega)]
      simp
    · have hne : T ≠ [] := by
        intro hnil
        rw [hnil] at hT
        exact hT rfl
      have hdl : T.dropLast.length % 2 = 0 := by
        have h1 : 1 ≤ T.length := by
          cases T with
          | nil => exact absurd rfl hne
          | cons x xs => simp
        rw [List.length_dropLast]
        omega
      have hT2 : T = T.dropLast ++ [T.getLast hne] :=
        (List.dropLast_append_getLast hne).symm
      have hchL : chunk2 (T ++ ['-']) =
          chunk2 T.dropLast ++ [[T.getLast hne, '-']] := by
        conv_lhs => rw [hT2]
        rw [List.append_assoc]
        rw [chunk2_append_even T.dropLast hdl]
        rfl
      have hchR : chunk2 T = chunk2 T.dropLast ++ [[T.getLast hne]] := by
        conv_lhs => rw [hT2]
        rw [chunk2_append_even T.dropLast hdl]
        rfl
      rw [hchL, hchR, joinGroups_concat, joinGroups_concat]
      rw [if_neg (by simp; omega)]
      simp

/-- C1 fails as stated on negative inputs with an odd digit count of at
least 3: the source groups the reversed `-` sign like a digit, so
`indian_format (-12345)` is `"-,12,345"`, not the `"-12,345"` the claim's
rule produces (`indianSpec`). -/
theorem claim_C1_counterexample :
    indian_format (-12345) = "-,12,345" ∧ indianSpec (-12345) = "-12,345" ∧
      indian_format (-12345) ≠ indianSpec (-12345) :=
  ⟨rfl, rfl, by decide⟩

/-- C1 amended: for nonnegative inputs, and for negative inputs whose
magnitude has an even digit count or fewer than 3 digits, `indian_format`
returns the claimed grouping with the sign as a plain `-` prefix
(`indianSpec`); for a negative input whose magnitude has an odd digit
count of at least 3, the `-` sign instead forms its own leading
comma-separated group (`"-,"` followed by the grouped magnitude).  The
claim's concrete examples hold. -/
theorem claim_C1_amended :
    (∀ x : Int,
      indian_format x =
        if x < 0 ∧ (natDigits x.natAbs).length % 2 = 1 ∧
            3 ≤ (natDigits x.natAbs).length
        then "-," ++ String.mk (groupChars (natDigits x.natAbs))
        else indianSpec x) ∧
      indian_format 1234567 = "12,34,567" ∧ indian_format 100 = "100" ∧
      indian_format 0 = "0" := by
  refine ⟨?_, rfl, rfl, rfl⟩
  intro x
  by_cases hx : x < 0
  · have hmk : indian_format x =
        String.mk (joinGroups (indianGroups ((natDigits x.natAbs).reverse ++ ['-']))) := by
      unfold indian_format intDigits groupChars
      rw [if_pos hx]
      simp
    have hR : (natDigits x.natAbs).reverse ≠ [] := by
      simp [natDigits_ne_nil]
    rw [hmk, groupLoop_dash _ hR]
    by_cases hcond : (natDigits x.natAbs).length % 2 = 1 ∧
        3 ≤ (natDigits x.natAbs).length
    · rw [if_pos (by simpa using hcond), if_pos ⟨hx, hcond⟩]
      rfl
    · rw [if_neg (by simpa using hcond), if_neg (by simp [hx, hcond])]
      unfold indianSpec
      rw [if_pos hx]
      rfl
  · rw [if_neg (by simp [hx])]
    unfold indian_format indianSpec intDigits
    rw [if_neg hx, if_neg hx]
    rfl

/-! ### Monotonicity of the financial week within a financial year (C8)

Two dates share a financial-year label exactly when they share the FY's
starting calendar year; the label determines that year because the decimal
numeral before the `-` separator is injective. -/

/-- Digit characters are digits, not the `-` separator. -/
theorem digitChar_ne_dash : ∀ n, n < 10 → digitChar n ≠ '-' := by decide

/-- The code point of a digit character. -/
theorem toNat_digitChar : ∀ n, n < 10 → (digitChar n).toNat = 48 + n := by
  decide

/-- No character of a decimal numeral is the `-` separator. -/
theorem natDigitsAux_ne_dash :
    ∀ (f n : Nat), ∀ c ∈ natDigitsAux f n, c ≠ '-'
  | 0, n => by simp [natDigitsAux]
  | f + 1, n => by
    intro c hc
    unfold natDigitsAux at hc
    by_cases h10 : n < 10
    · rw [if_pos h10] at hc
      simp only [List.mem_singleton] at hc
      exact hc ▸ digitChar_ne_dash n h10
    · rw [if_neg h10] at hc
      rcases List.mem_append.mp hc with hm | hm
      · exact natDigitsAux_ne_dash f (n / 10) c hm
      · simp only [List.mem_singleton] at hm
        exact hm ▸ digitChar_ne_dash (n % 10) (Nat.mod_lt _ (by omega))

/-- Reading a digit string after appending one digit. -/
theorem digitsVal_append_singleton (L : List Char) (c : Char) :
    digitsVal (L ++ [c]) = 10 * digitsVal L + (c.toNat - 48) := by
  simp [digitsVal, List.foldl_append]

/-- The numeral of `n` reads back as `n` whenever the fuel covers all
digits. -/
theorem digitsVal_natDigitsAux :
    ∀ (f n : Nat), n < 10 ^ f → digitsVal (natDigitsAux f n) = n
  | 0, n, h => by
    have h0 : n = 0 := by simpa [Nat.lt_one_iff] using h
    simp [natDigitsAux, digitsVal, h0]
  | f + 1, n, h => by
    by_cases h10 : n < 10
    · unfold natDigitsAux
      rw [if_pos h10]
      simp only [digitsVal, List.foldl_cons, List.foldl_nil]
      rw [toNat_digitChar n h10]
      omega
    · unfold natDigitsAux
      rw [if_neg h10]
      rw [digitsVal_append_singleton]
      have hdiv : n / 10 < 10 ^ f := by
        rw [Nat.div_lt_iff_lt_mul (by omega : 0 < 10)]
        rw [Nat.pow_succ] at h
        exact h
      rw [digitsVal_natDigitsAux f (n / 10) hdiv]
      rw [toNat_digitChar (n % 10) (Nat.mod_lt _ (by omega))]
      omega

/-- The decimal digit string of `n` denotes `n`. -/
theorem digitsVal_natDigits (n : Nat) : digitsVal (natDigits n) = n := by
  refine digitsVal_natDigitsAux (n + 1) n ?_
  calc n < 10 ^ n := Nat.lt_pow_self (by omega) n
    _ ≤ 10 ^ (n + 1) := Nat.pow_le_pow_right (by omega) (Nat.le_succ n)

/-- Two dash-free prefixes followed by a `-` separator agree whenever the
full strings agree. -/
theorem append_dash_inj :
    ∀ (A : List Char), (∀ c ∈ A, c ≠ '-') →
      ∀ (B : List Char), (∀ c ∈ B, c ≠ '-') →
        ∀ (X Y : List Char), A ++ '-' :: X = B ++ '-' :: Y → A = B
  | [], _, [], _, _, _, _ => rfl
  | [], _, b :: B, hB, X, Y, h => by
    simp only [List.nil_append, List.cons_append, List.cons.injEq] at h
    exact absurd h.1.symm (hB b (by simp))
  | a :: A, hA, [], _, X, Y, h => by
    simp only [List.nil_append, List.cons_append, List.cons.injEq] at h
    exact absurd h.1 (hA a (by simp))
  | a :: A, hA, b :: B, hB, X, Y, h => by
    simp only [List.cons_append, List.cons.injEq] at h
    have hrec := append_dash_inj A (fun c hc => hA c (by simp [hc]))
      B (fun c hc => hB c (by simp [hc])) X Y h.2
    rw [h.1, hrec]

/-- The financial-year label is `fyLabel` of the FY's starting year. -/
theorem get_fin_year_eq_fyLabel (d : Date) (hy : 1 ≤ d.year) :
    get_fin_year d = fyLabel (fyStartYear d) := by
  unfold get_fin_year fyLabel fyStartYear
  by_cases hm : d.month < 4
  · rw [if_pos hm, if_neg (by omega)]
    have hsucc : d.year - 1 + 1 = d.year := by omega
    rw [hsucc]
  · rw [if_neg hm, if_pos (by omega)]

/-- The label determines the financial year's starting calendar year. -/
theorem fyLabel_inj {s1 s2 : Nat} (h : fyLabel s1 = fyLabel s2) : s1 = s2 := by
  unfold fyLabel natStr at h
  have hd := congrArg String.data h
  simp only [String.data_append] at hd
  have hd2 : natDigits s1 ++ '-' :: (last2 (s1 + 1)).data =
      natDigits s2 ++ '-' :: (last2 (s2 + 1)).data := by
    simpa [List.append_assoc] using hd
  have hdig := append_dash_inj (natDigits s1)
    (natDigitsAux_ne_dash (s1 + 1) s1) (natDigits s2)
    (natDigitsAux_ne_dash (s2 + 1) s2) _ _ hd2
  have := congrArg digitsVal hdig
  rwa [digitsVal_natDigits, digitsVal_natDigits] at this

/-- Floor division by 7 is monotone. -/
theorem fdiv_seven_mono {a b : Int} (h : a ≤ b) : a.fdiv 7 ≤ b.fdiv 7 := by
  rw [Int.fdiv_eq_ediv _ (by omega), Int.fdiv_eq_ediv _ (by omega)]
  exact Int.ediv_le_ediv (by omega) h

/-- C8: within one financial year the financial week number is monotone:
if two valid dates carry the same `get_fin_year` label and the first is no
later than the second, its `get_fin_week` is no larger. -/
theorem claim_C8 (d1 d2 : Date) (h1 : isValidDate d1) (h2 : isValidDate d2)
    (hle : toOrdinal d1 ≤ toOrdinal d2)
    (hfy : get_fin_year d1 = get_fin_year d2) :
    get_fin_week d1 ≤ get_fin_week d2 := by
  have hs : fyStartYear d1 = fyStartYear d2 :=
    fyLabel_inj ((get_fin_year_eq_fyLabel d1 h1.1).symm.trans
      (hfy.trans (get_fin_year_eq_fyLabel d2 h2.1)))
  unfold get_fin_week fyStart
  rw [hs]
  have hsub : (toOrdinal d1 : Int) - (toOrdinal ⟨fyStartYear d2, 4, 1⟩ : Int) ≤
      (toOrdinal d2 : Int) - (toOrdinal ⟨fyStartYear d2, 4, 1⟩ : Int) :=
    sub_le_sub_right (by exact_mod_cast hle) _
  exact add_le_add_right (fdiv_seven_mono hsub) 1

/-- Witness for C8: April 1 2023 against May 1 2023, both in FY 2023-24. -/
theorem claim_C8_witness :
    isValidDate ⟨2023, 4, 1⟩ ∧ isValidDate ⟨2023, 5, 1⟩ ∧
      toOrdinal ⟨2023, 4, 1⟩ ≤ toOrdinal ⟨2023, 5, 1⟩ ∧
      get_fin_year ⟨2023, 4, 1⟩ = get_fin_year ⟨2023, 5, 1⟩ ∧
      get_fin_week ⟨2023, 4, 1⟩ ≤ get_fin_week ⟨2023, 5, 1⟩ :=
  ⟨by decide, by decide, by decide, by decide,
   claim_C8 ⟨2023, 4, 1⟩ ⟨2023, 5, 1⟩ (by decide) (by decide) (by decide)
     (by decide)⟩

end

end SalesDashboard
